import Mathlib

/-!
Verification development for the evidence-gated resume patch engine of
`resume_gen`.  The data model mirrors `src/appui/src/lib/types.ts`; the
scoring / truth-policy / patch-generation / versioning behaviour is not
shipped in `src` (only its TypeScript client and response types are), so
those operations are modelled from the specification, faithfully to its
words, and marked as such in their doc comments.
-/

namespace ResumeGen

/-! ## Data model (from src/appui/src/lib/types.ts) -/

/-- `ApiResponse<T> = { ok: true; data: T } | { ok: false; error: string }`. -/
inductive ApiResponse (T : Type) where
  | ok (data : T)
  | err (error : String)
deriving DecidableEq

/-- `AtsSkillEvidence` (types.ts lines 56-61).  `section` is a Lean keyword,
so the field is called `sectionName`. -/
structure AtsSkillEvidence where
  sectionName : String
  role_id : Option String
  bullet_index : Option Nat
  snippet : String
deriving DecidableEq

/-- `SkillStatus = "direct" | "partial" | "missing"` (types.ts line 63).
`partial` is a Lean keyword, so the constructor is called `partialCov`. -/
inductive SkillStatus where
  | direct
  | partialCov
  | missing
deriving DecidableEq

/-- `SkillCoverage` (types.ts lines 65-70). -/
structure SkillCoverage where
  skill : String
  status : SkillStatus
  evidence : List AtsSkillEvidence
  direct_from_resume : Bool
deriving DecidableEq

/-- `AtsScoreResponse` (types.ts lines 72-78).  `ats_score : number`
is modelled as a rational. -/
structure AtsScoreResponse where
  ats_score : ℚ
  required : List SkillCoverage
  preferred : List SkillCoverage
  missing_required : List String
  missing_preferred : List String
deriving DecidableEq

/-- The field names of `AtsScoreResponse`, in declaration order
(types.ts lines 72-78). -/
def atsScoreResponseFields : List String :=
  ["ats_score", "required", "preferred", "missing_required", "missing_preferred"]

/-- The section of a `PatchOperation` (types.ts line 82). -/
inductive PatchSection where
  | experience
  | technical_skills
deriving DecidableEq

/-- The action of a `PatchOperation` (types.ts line 83). -/
inductive PatchAction where
  | replace
  | insert
deriving DecidableEq

/-- `PatchOperation` (types.ts lines 80-89).  Indices are natural numbers. -/
structure PatchOperation where
  role_id : Option String
  sectionName : PatchSection
  action : PatchAction
  bullet_index : Option Nat
  after_index : Option Nat
  new_bullet : String
  skill : Option String
  reason : Option String
deriving DecidableEq

/-- `recommended_action` of a `BlockedSuggestion` (types.ts line 99). -/
inductive RecommendedAction where
  | add_override
  | downgrade_to_exposure
deriving DecidableEq

/-- `BlockedSuggestion` (types.ts lines 96-102).  The open
`Record<string, unknown>` payload is modelled as string key/value pairs. -/
structure BlockedSuggestion where
  skill : String
  reason : String
  recommended_action : RecommendedAction
  suggested_role_ids : List String
  example_override_payload : Option (List (String × String))
deriving DecidableEq

/-- `SuggestPatchesResponse` (types.ts lines 91-94). -/
structure SuggestPatchesResponse where
  suggested_patches : List PatchOperation
  blocked : List BlockedSuggestion
deriving DecidableEq

/-- The `paths` object of `ApplyPatchesResponse` (types.ts lines 107-110). -/
structure ApplyPatchesPaths where
  resume_json : Option String
  resume_docx : Option String
deriving DecidableEq

/-- `ApplyPatchesResponse` (types.ts lines 104-111): fields `resume_id`,
`version` (a string) and `paths`. -/
structure ApplyPatchesResponse where
  resume_id : String
  version : String
  paths : ApplyPatchesPaths
deriving DecidableEq

/-- The field names of `ApplyPatchesResponse`, in declaration order
(types.ts lines 104-111). -/
def applyPatchesResponseFields : List String :=
  ["resume_id", "version", "paths"]

/-- The field names of the nested `paths` object of `ApplyPatchesResponse`
(types.ts lines 107-110). -/
def applyPatchesPathsFields : List String :=
  ["resume_json", "resume_docx"]

/-- `ExperienceRole` (types.ts lines 26-33). -/
structure ExperienceRole where
  role_id : String
  company : String
  title : Option String
  location : Option String
  dates : Option String
  bullets : List String
deriving DecidableEq

/-- The `header` of a `ResumeState` (types.ts lines 36-40). -/
structure ResumeHeader where
  name : Option String
  location_line : Option String
  contact_line : Option String
deriving DecidableEq

/-- The `sections` of a `ResumeState` (types.ts lines 41-46). -/
structure ResumeSections where
  professional_summary : String
  technical_skills : List String
  experience : List ExperienceRole
  education : Option (List String)
deriving DecidableEq

/-- `ResumeState` (types.ts lines 35-47). -/
structure ResumeState where
  header : ResumeHeader
  sections : ResumeSections
deriving DecidableEq

/-! ## Spec-modelled parts of the data model -/

/-- Modelled from the spec: the ordered proficiency scale of an `Override`
(§3: "proficiency level (ordered scale, e.g. exposure < worked_with <
hands_on)").  The backend that persists overrides is not in `src`. -/
inductive OverrideLevel where
  | exposure
  | worked_with
  | hands_on
deriving DecidableEq

/-- Position of a level on the ordered scale. -/
def levelRank : OverrideLevel → Nat
  | .exposure => 0
  | .worked_with => 1
  | .hands_on => 2

/-- Modelled from the spec: an `Override` record (§3: "skill name,
proficiency level, target role ids it applies to, one or more proof-bullet
strings supplied by the user").  The backend ledger is not in `src`. -/
structure Override where
  skill : String
  level : OverrideLevel
  target_roles : List String
  proof_bullets : List String
deriving DecidableEq

/-- `TruthMode` (§3 and api.ts: `'off' | 'strict' | 'balanced'`). -/
inductive TruthMode where
  | off
  | strict
  | balanced
deriving DecidableEq

/-- Modelled from the spec: the tagged decision of the Truth Policy Engine
(§4.2, §9: "a pure function returning a tagged variant {Allow, Block}"). -/
inductive Decision where
  | allow
  | block
deriving DecidableEq

/-! ## Lexical matching (spec-modelled)

The spec leaves the exact matching rule open (§9: "implementers must choose
and document a concrete, testable matching rule").  We choose: a skill
matches a bullet when it occurs in it as a contiguous substring, and
matches the technical-skills list when it is literally one of its entries. -/

/-- Whether `pat` is a prefix of `text`, on character lists. -/
def charsPrefix : List Char → List Char → Bool
  | _, [] => true
  | [], _ :: _ => false
  | a :: as, b :: bs => a == b && charsPrefix as bs

/-- Whether `pat` occurs as a contiguous substring of the given text. -/
def charsContains (pat : List Char) : List Char → Bool
  | [] => pat.isEmpty
  | c :: rest => charsPrefix (c :: rest) pat || charsContains pat rest

/-- Whether the skill name occurs as a contiguous substring of the text. -/
def strMentions (text skill : String) : Bool :=
  charsContains skill.data text.data

/-- Modelled from the spec: whether the resume itself lexically demonstrates
the skill (§4.1 `direct`: "an exact or near-exact lexical/synonym match of
the skill appears in the resume's technical-skills list or bullet text").
The Scorer backend is not in `src`. -/
def resumeMatch (state : ResumeState) (k : String) : Bool :=
  state.sections.technical_skills.contains k
    || state.sections.experience.any fun r => r.bullets.any fun b => strMentions b k

/-- Whether some override for skill `k` at level at least `lvl` exists. -/
def hasOverrideAtLeast (overrides : List Override) (k : String) (lvl : OverrideLevel) : Bool :=
  overrides.any fun o => o.skill == k && levelRank lvl ≤ levelRank o.level

/-- Modelled from the spec: status assignment of the Scorer (§4.1:
`direct` on a resume-text match; `partial` if only an Override at level
≥ worked_with exists without resume-text corroboration; `missing`
otherwise).  The Scorer backend is not in `src`. -/
def skillStatus (state : ResumeState) (overrides : List Override) (k : String) : SkillStatus :=
  if resumeMatch state k then .direct
  else if hasOverrideAtLeast overrides k .worked_with then .partialCov
  else .missing

/-- Evidence drawn from the technical-skills section for skill `k`. -/
def skillsEvidence (tech : List String) (k : String) : List AtsSkillEvidence :=
  if tech.contains k then [⟨"technical_skills", none, none, k⟩] else []

/-- Evidence drawn from the bullets of one role, with their indices;
`i` is the index of the first bullet in the list. -/
def bulletsEvidence (rid k : String) : Nat → List String → List AtsSkillEvidence
  | _, [] => []
  | i, b :: bs =>
    (if strMentions b k then [⟨"experience", some rid, some i, b⟩] else [])
      ++ bulletsEvidence rid k (i + 1) bs

/-- Evidence drawn from one experience role for skill `k`. -/
def roleEvidence (r : ExperienceRole) (k : String) : List AtsSkillEvidence :=
  bulletsEvidence r.role_id k 0 r.bullets

/-- Modelled from the spec: the resume-sourced `Evidence` items for a skill
(§3: "Evidence: a pointer into resume content or override content plus a
verbatim snippet").  The Scorer backend is not in `src`. -/
def resumeEvidence (state : ResumeState) (k : String) : List AtsSkillEvidence :=
  skillsEvidence state.sections.technical_skills k
    ++ (state.sections.experience.map fun r => roleEvidence r k).flatten

/-- Modelled from the spec: the override-sourced `Evidence` items for a
skill (§2: the Override Ledger is "first-class evidence"; §3: Evidence may
point into override content).  The backend ledger is not in `src`. -/
def overrideEvidence (overrides : List Override) (k : String) : List AtsSkillEvidence :=
  ((overrides.filter fun o => o.skill == k).map fun o =>
    o.proof_bullets.map fun b => ⟨"overrides", o.target_roles.head?, none, b⟩).flatten

/-- Modelled from the spec: the `SkillCoverage` the Scorer computes for one
skill (§3, §4.1).  The Scorer backend is not in `src`. -/
def scoreCoverage (state : ResumeState) (overrides : List Override) (k : String) : SkillCoverage :=
  { skill := k
    status := skillStatus state overrides k
    evidence := resumeEvidence state k ++ overrideEvidence overrides k
    direct_from_resume := !(resumeEvidence state k).isEmpty }

/-! ## Aggregate ATS score (spec-modelled) -/

/-- Coverage points of one status; required by the spec only to be
monotone along missing < partial < direct. -/
def covPoints : SkillStatus → ℚ
  | .direct => 2
  | .partialCov => 1
  | .missing => 0

/-- Total coverage points of a coverage list. -/
def totalPoints (l : List SkillCoverage) : ℚ :=
  (l.map fun c => covPoints c.status).sum

/-- Modelled from the spec: the aggregate `ats_score` in [0,100] (§4.1:
"weights required-skill coverage more heavily than preferred"; the exact
constants are an implementation choice).  Required skills carry weight 3,
preferred weight 1; an input with no skills at all scores 0.  The Scorer
backend is not in `src`. -/
def atsScoreVal (req pref : List SkillCoverage) : ℚ :=
  if 6 * (req.length : ℚ) + 2 * pref.length = 0 then 0
  else 100 * (3 * totalPoints req + totalPoints pref)
    / (6 * (req.length : ℚ) + 2 * pref.length)

/-- Modelled from the spec: `score` (§6: `score(jd_text, resume_state,
overrides, top_n_skills, strict_mode) → {ats_score, required[],
preferred[], missing_required[], missing_preferred[]}`).  JD skill
extraction is delegated to an external parser (§4.1), so the operation
consumes the already-extracted required/preferred skill lists.  The
backend is not in `src`. -/
def score (reqSkills prefSkills : List String) (state : ResumeState)
    (overrides : List Override) : AtsScoreResponse :=
  let req := reqSkills.map (scoreCoverage state overrides)
  let pref := prefSkills.map (scoreCoverage state overrides)
  { ats_score := atsScoreVal req pref
    required := req
    preferred := pref
    missing_required := (req.filter fun c => c.status == .missing).map fun c => c.skill
    missing_preferred := (pref.filter fun c => c.status == .missing).map fun c => c.skill }

/-! ## Truth Policy Engine (spec-modelled, §4.2) -/

/-- Whether an override has at least one target role that exists in the
resume, so that it "targets the relevant role" in the sense of §4.2. -/
def overrideTargetsResume (state : ResumeState) (o : Override) : Bool :=
  o.target_roles.any fun rid => state.sections.experience.any fun r => r.role_id == rid

/-- Modelled from the spec: the pure decision table of the Truth Policy
Engine (§4.2).  `off`: always allow.  `strict`: allow only on `direct`
status or a hands_on override for the skill targeting a role of the
resume.  `balanced`: allow on `direct`, or `partial` with at least one
Evidence item; block only otherwise.  The engine backend is not in
`src`. -/
def truthDecision (mode : TruthMode) (state : ResumeState) (overrides : List Override)
    (cov : SkillCoverage) : Decision :=
  match mode with
  | .off => .allow
  | .strict =>
    if cov.status == .direct then .allow
    else if overrides.any fun o =>
        o.skill == cov.skill && o.level == .hands_on && overrideTargetsResume state o then
      .allow
    else .block
  | .balanced =>
    if cov.status == .direct then .allow
    else if cov.status == .partialCov && !cov.evidence.isEmpty then .allow
    else .block

/-! ## Patch Candidate Generator (spec-modelled, §4.3) -/

/-- The overrides recorded for one skill. -/
def overridesFor (overrides : List Override) (k : String) : List Override :=
  overrides.filter fun o => o.skill == k

/-- Modelled from the spec: target role selection (§4.3: "prefer the most
recent role (by position in the experience list) among roles an Override
targets, if any; otherwise the most recent role overall").  The generator
backend is not in `src`. -/
def chooseTargetRole (state : ResumeState) (overrides : List Override) (k : String) :
    Option ExperienceRole :=
  let targeted := state.sections.experience.filter fun r =>
    (overridesFor overrides k).any fun o => o.target_roles.any fun rid => rid == r.role_id
  match targeted with
  | r :: _ => some r
  | [] => state.sections.experience.head?

/-- Modelled from the spec: bullet text synthesis (§4.3: "from the best
available Evidence snippet"; a backing-free text may only arise under
`TruthMode = off`, where fabrication is explicitly permitted). -/
def bestSnippet (cov : SkillCoverage) : String :=
  match cov.evidence with
  | e :: _ => e.snippet
  | [] => "Worked with " ++ cov.skill ++ "."

/-- Modelled from the spec: the `PatchOperation` generated for an allowed
non-direct skill (§4.3).  Inserts an evidence-backed bullet at the end of
the chosen role, or adds the skill to technical skills when the resume has
no experience roles.  The generator backend is not in `src`. -/
def patchFor (state : ResumeState) (overrides : List Override) (cov : SkillCoverage) :
    PatchOperation :=
  match chooseTargetRole state overrides cov.skill with
  | some r =>
    { role_id := some r.role_id
      sectionName := .experience
      action := .insert
      bullet_index := none
      after_index := some (r.bullets.length - 1)
      new_bullet := bestSnippet cov
      skill := some cov.skill
      reason := some ("Add evidence-backed bullet for " ++ cov.skill) }
  | none =>
    { role_id := none
      sectionName := .technical_skills
      action := .insert
      bullet_index := none
      after_index := some (state.sections.technical_skills.length - 1)
      new_bullet := cov.skill
      skill := some cov.skill
      reason := some ("Add " ++ cov.skill ++ " to technical skills") }

/-- Modelled from the spec: the `BlockedSuggestion` generated for a blocked
skill (§4.3: `recommended_action` is `add_override` when no Override for
the skill exists yet, `downgrade_to_exposure` when one exists at an
insufficient level).  The generator backend is not in `src`. -/
def blockedFor (state : ResumeState) (overrides : List Override) (cov : SkillCoverage) :
    BlockedSuggestion :=
  { skill := cov.skill
    reason := "No verifiable evidence for " ++ cov.skill
    recommended_action :=
      if (overridesFor overrides cov.skill).isEmpty then .add_override
      else .downgrade_to_exposure
    suggested_role_ids := (state.sections.experience.map fun r => r.role_id).take 1
    example_override_payload := some [("skill", cov.skill), ("level", "hands_on")] }

/-- Modelled from the spec: per-skill output of the Candidate Generator
(§4.3: a `PatchOperation` or a `BlockedSuggestion` "for each non-`direct`
skill (direct skills need no patch)"). -/
def genItem (mode : TruthMode) (state : ResumeState) (overrides : List Override)
    (cov : SkillCoverage) : Option (Sum PatchOperation BlockedSuggestion) :=
  if cov.status == .direct then none
  else
    match truthDecision mode state overrides cov with
    | .allow => some (.inl (patchFor state overrides cov))
    | .block => some (.inr (blockedFor state overrides cov))

/-- Rank of a patch section in the stable output order (§4.3: "grouped by
section then role order then bullet position"). -/
def sectionRank : PatchSection → Nat
  | .experience => 0
  | .technical_skills => 1

/-- Position of a role id in the experience list, for the stable order. -/
def rolePosition (state : ResumeState) : Option String → Nat
  | none => 0
  | some rid => state.sections.experience.findIdx fun r => r.role_id == rid

/-- Bullet position of a patch in the stable output order. -/
def bulletPos (p : PatchOperation) : Nat :=
  match p.action with
  | .replace => p.bullet_index.getD 0
  | .insert => p.after_index.getD 0

/-- Lexicographic comparison of two patch sort keys. -/
def keyLE (a b : Nat × Nat × Nat) : Bool :=
  a.1 < b.1 || (a.1 == b.1 && (a.2.1 < b.2.1 || (a.2.1 == b.2.1 && a.2.2 ≤ b.2.2)))

/-- The sort key of a patch: section rank, then role order, then bullet
position (§4.3). -/
def patchKey (state : ResumeState) (p : PatchOperation) : Nat × Nat × Nat :=
  (sectionRank p.sectionName, rolePosition state p.role_id, bulletPos p)

/-- The stable output order on patches (§4.3). -/
def patchLE (state : ResumeState) (p q : PatchOperation) : Prop :=
  keyLE (patchKey state p) (patchKey state q) = true

instance (state : ResumeState) : DecidableRel (patchLE state) :=
  fun _ _ => instDecidableEqBool _ _

/-- The patch operations among the generator's outputs, in order. -/
def itemsPatches (items : List (Sum PatchOperation BlockedSuggestion)) :
    List PatchOperation :=
  items.filterMap fun i => match i with | .inl p => some p | .inr _ => none

/-- The blocked suggestions among the generator's outputs, in order. -/
def itemsBlocked (items : List (Sum PatchOperation BlockedSuggestion)) :
    List BlockedSuggestion :=
  items.filterMap fun i => match i with | .inl _ => none | .inr b => some b

/-- The generator's outputs over a skill list, in the list's order. -/
def suggestItems (mode : TruthMode) (state : ResumeState) (overrides : List Override)
    (skills : List String) : List (Sum PatchOperation BlockedSuggestion) :=
  (skills.map (scoreCoverage state overrides)).filterMap (genItem mode state overrides)

/-- Modelled from the spec: `suggest` (§6: `suggest(...) →
{suggested_patches[], blocked[]}`).  Coverages are computed for the
required then the preferred skills; each non-direct skill yields a patch
or a blocked item per the Truth Policy Engine; patches are emitted in the
stable order of §4.3.  The backend is not in `src`. -/
def suggest (reqSkills prefSkills : List String) (state : ResumeState)
    (overrides : List Override) (mode : TruthMode) : SuggestPatchesResponse :=
  { suggested_patches :=
      List.insertionSort (patchLE state)
        (itemsPatches (suggestItems mode state overrides (reqSkills ++ prefSkills)))
    blocked := itemsBlocked (suggestItems mode state overrides (reqSkills ++ prefSkills)) }

/-- Modelled from the spec: `blocked_plan` (§6: "a read-only projection
limited to remediation guidance", truncated to `top_n` items).  The
backend is not in `src`. -/
def blockedPlan (reqSkills prefSkills : List String) (state : ResumeState)
    (overrides : List Override) (mode : TruthMode) (top_n : Nat) : List BlockedSuggestion :=
  (suggest reqSkills prefSkills state overrides mode).blocked.take top_n

/-! ## Resume Version Manager (spec-modelled, §4.4) -/

/-- Modelled from the spec: the versioned document of the Version Manager
(§3: `resume_id` opaque and immutable, `version` a monotonically
increasing integer per `resume_id`, starting at 1).  The backend store is
not in `src`. -/
structure ResumeDocument where
  resume_id : String
  version : Nat
  state : ResumeState
deriving DecidableEq

/-- Modelled from the spec: creation of version 1 by initial generation
(§3.4 lifecycle). -/
def initialDocument (rid : String) (st : ResumeState) : ResumeDocument :=
  { resume_id := rid, version := 1, state := st }

/-- The error taxonomy of `apply` (§7): `ValidationError` for a malformed
role/bullet reference, `VersionConflict` for an optimistic-concurrency
mismatch. -/
inductive ApplyError where
  | versionConflict
  | validationError
deriving DecidableEq

/-- Insert an element directly after position `i`. -/
def insertAfter (l : List String) (i : Nat) (a : String) : List String :=
  l.take (i + 1) ++ a :: l.drop (i + 1)

/-- Modelled from the spec: validation and application of one operation to
one bullet list (§4.4: "every `bullet_index`/`after_index` must be in
range at the time its operation is applied"). -/
def applyToBullets (action : PatchAction) (bullet_index after_index : Option Nat)
    (nb : String) (bullets : List String) : Option (List String) :=
  match action with
  | .replace =>
    match bullet_index with
    | some i => if i < bullets.length then some (bullets.set i nb) else none
    | none => none
  | .insert =>
    match after_index with
    | some i => if i < bullets.length then some (insertAfter bullets i nb) else none
    | none => none

/-- Modelled from the spec: validation and application of one
`PatchOperation` (§4.4: "every `role_id` referenced must exist in version
N"; indices must be in range).  The backend is not in `src`. -/
def applyOp (st : ResumeState) (op : PatchOperation) : Option ResumeState :=
  match op.sectionName with
  | .technical_skills =>
    match applyToBullets op.action op.bullet_index op.after_index op.new_bullet
        st.sections.technical_skills with
    | some tech => some { st with sections := { st.sections with technical_skills := tech } }
    | none => none
  | .experience =>
    match op.role_id with
    | none => none
    | some rid =>
      match st.sections.experience.findIdx? fun r => r.role_id == rid with
      | none => none
      | some j =>
        match st.sections.experience[j]? with
        | none => none
        | some r =>
          match applyToBullets op.action op.bullet_index op.after_index op.new_bullet
              r.bullets with
          | none => none
          | some bs =>
            some { st with sections :=
              { st.sections with
                experience := st.sections.experience.set j { r with bullets := bs } } }

/-- Modelled from the spec: sequential application of a batch (§4.4:
"operations within a batch are applied in the order given, and indices are
recomputed after each insert/replace"); any failure fails the whole
batch. -/
def applyBatch : ResumeState → List PatchOperation → Option ResumeState
  | st, [] => some st
  | st, op :: ops =>
    match applyOp st op with
    | none => none
    | some st2 => applyBatch st2 ops

/-- Whether the caller's believed version matches the current one (§4.4
optimistic concurrency; an absent `expected_version` skips the check,
matching the optional `expected_version?` of §6). -/
def checkVersion (doc : ResumeDocument) (expected : Option Nat) : Bool :=
  match expected with
  | none => true
  | some v => v == doc.version

/-- Modelled from the spec: the atomic `apply` of the Version Manager
(§4.4: "validates and applies them as a single atomic unit producing
version N+1, or fails leaving version N untouched").  The backend is not
in `src`. -/
def applyPatches (doc : ResumeDocument) (expected : Option Nat)
    (ops : List PatchOperation) : Except ApplyError ResumeDocument :=
  if checkVersion doc expected then
    match applyBatch doc.state ops with
    | some st => .ok { resume_id := doc.resume_id, version := doc.version + 1, state := st }
    | none => .error .validationError
  else .error .versionConflict

/-- The state transition an external observer sees: the new document on
success, the unchanged document on failure (§4.4 state machine). -/
def applyStep (doc : ResumeDocument) (expected : Option Nat)
    (ops : List PatchOperation) : ResumeDocument :=
  match applyPatches doc expected ops with
  | .ok d => d
  | .error _ => doc

/-- One `apply` request: the caller's believed version and the batch. -/
structure ApplyRequest where
  expected : Option Nat
  ops : List PatchOperation
deriving DecidableEq

/-- Run a sequence of `apply` requests against a document. -/
def runRequests : ResumeDocument → List ApplyRequest → ResumeDocument
  | doc, [] => doc
  | doc, r :: rs => runRequests (applyStep doc r.expected r.ops) rs

/-- The number of requests in a sequence that apply successfully. -/
def countApplied : ResumeDocument → List ApplyRequest → Nat
  | _, [] => 0
  | doc, r :: rs =>
    (if (applyPatches doc r.expected r.ops).toBool then 1 else 0)
      + countApplied (applyStep doc r.expected r.ops) rs

/-- The version string exposed by the HTTP layer for a stored version
(README: state is saved under `storage/generated_resumes/<id>/v1/`). -/
def versionString (n : Nat) : String := "v" ++ toString n

/-- Modelled from the spec and README: the success response of the apply
endpoint, with exactly the fields of `ApplyPatchesResponse` in types.ts. -/
def mkApplyResponse (d : ResumeDocument) : ApplyPatchesResponse :=
  { resume_id := d.resume_id
    version := versionString d.version
    paths :=
      { resume_json := some ("storage/generated_resumes/" ++ d.resume_id ++ "/"
          ++ versionString d.version ++ "/resume.json")
        resume_docx := none } }

/-! ## The API client request function (src/appui/src/lib/api.ts, lines 16-34)

The effectful pieces (`fetch`, `res.text()`, `res.json()`) are embedded as
explicit outcomes: a JavaScript promise either settles with a value or
throws with an error message. -/

/-- The outcome of awaiting a JavaScript promise. -/
inductive JsOutcome (α : Type) where
  | value (a : α)
  | thrown (msg : String)
deriving DecidableEq

/-- The part of a fetch `Response` that `request` consumes: the `ok` flag
and the outcomes of `res.text()` and `res.json()`. -/
structure FetchResponse (T : Type) where
  ok : Bool
  textResult : JsOutcome String
  jsonResult : JsOutcome T

/-- `request` from api.ts lines 16-34: everything runs in one
`try`/`catch`, so a rejection of `fetch`, of `res.text()` or of
`res.json()` becomes `{ ok: false, error }`; a non-ok response returns its
body text as the error; otherwise the parsed JSON is returned as
`{ ok: true, data }`. -/
def request (outcome : JsOutcome (FetchResponse T)) : ApiResponse T :=
  match outcome with
  | .thrown msg => .err msg
  | .value res =>
    if res.ok then
      match res.jsonResult with
      | .value d => .ok d
      | .thrown msg => .err msg
    else
      match res.textResult with
      | .value t => .err t
      | .thrown msg => .err msg

/-! ## The ScoreRing component (src/unnamed/part_002)

JavaScript numbers are modelled as rationals; `Math.PI` is the (shortest
decimal of the) double-precision constant the code reads. -/

/-- The value of `Math.PI`. -/
def mathPi : ℚ := 3.141592653589793

/-- `const radius = size / 2 - 10`. -/
def ringRadius (size : ℚ) : ℚ := size / 2 - 10

/-- `const circumference = 2 * Math.PI * radius`. -/
def ringCircumference (size : ℚ) : ℚ := 2 * mathPi * ringRadius size

/-- `const progress = Math.max(0, Math.min(100, score))`. -/
def ringProgress (score : ℚ) : ℚ := max 0 (min 100 score)

/-- `const offset = circumference - (progress / 100) * circumference`. -/
def ringOffset (size score : ℚ) : ℚ :=
  ringCircumference size - ringProgress score / 100 * ringCircumference size

/-- The three colors the component can pick. -/
inductive RingColor where
  | red
  | amber
  | green
deriving DecidableEq

/-- The color choice: green by default, red for `score < 60`, amber for
`score < 80` (part_002 lines 13-15). -/
def ringColor (score : ℚ) : RingColor :=
  if score < 60 then .red
  else if score < 80 then .amber
  else .green

/-- The hex code of each ring color (part_002 lines 13-15). -/
def ringColorHex : RingColor → String
  | .red => "#DC2626"
  | .amber => "#F59E0B"
  | .green => "#16A34A"

/-! ## Concrete fixtures used by witnesses and counterexamples -/

/-- A sample experience role. -/
def sampleRole : ExperienceRole :=
  { role_id := "r1", company := "Acme", title := some "Data Engineer",
    location := none, dates := none,
    bullets := ["Built SQL pipelines.", "Automated reporting."] }

/-- A sample resume state: SQL is demonstrated, Fivetran is not. -/
def sampleState : ResumeState :=
  { header := { name := none, location_line := none, contact_line := none }
    sections :=
      { professional_summary := "Data engineer."
        technical_skills := ["SQL", "Python"]
        experience := [sampleRole]
        education := none } }

/-- A sample document at its initial version. -/
def sampleDoc : ResumeDocument := initialDocument "resume-1" sampleState

/-- A sample successful fetch response carrying the number 5. -/
def sampleFetch : FetchResponse Nat :=
  { ok := true, textResult := JsOutcome.value "", jsonResult := JsOutcome.value 5 }

/-! ## Basic lemmas about the aggregate score -/

lemma covPoints_nonneg (s : SkillStatus) : 0 ≤ covPoints s := by
  cases s <;> norm_num [covPoints]

lemma covPoints_le_two (s : SkillStatus) : covPoints s ≤ 2 := by
  cases s <;> norm_num [covPoints]

lemma totalPoints_nil : totalPoints [] = 0 := rfl

lemma totalPoints_cons (c : SkillCoverage) (t : List SkillCoverage) :
    totalPoints (c :: t) = covPoints c.status + totalPoints t := by
  simp [totalPoints]

lemma totalPoints_nonneg (l : List SkillCoverage) : 0 ≤ totalPoints l := by
  induction l with
  | nil => simp [totalPoints_nil]
  | cons c t ih =>
    rw [totalPoints_cons]
    have := covPoints_nonneg c.status
    linarith

lemma totalPoints_le_two_mul (l : List SkillCoverage) :
    totalPoints l ≤ 2 * l.length := by
  induction l with
  | nil => simp [totalPoints_nil]
  | cons c t ih =>
    rw [totalPoints_cons, List.length_cons]
    have := covPoints_le_two c.status
    push_cast
    push_cast at ih
    linarith

lemma atsScoreVal_mem (req pref : List SkillCoverage) :
    0 ≤ atsScoreVal req pref ∧ atsScoreVal req pref ≤ 100 := by
  unfold atsScoreVal
  by_cases h : 6 * (req.length : ℚ) + 2 * pref.length = 0
  · simp [h]
  · have hden : (0 : ℚ) ≤ 6 * (req.length : ℚ) + 2 * pref.length := by positivity
    have hpos : (0 : ℚ) < 6 * (req.length : ℚ) + 2 * pref.length :=
      lt_of_le_of_ne hden (Ne.symm h)
    rw [if_neg h]
    constructor
    · apply div_nonneg _ hden
      have h1 := totalPoints_nonneg req
      have h2 := totalPoints_nonneg pref
      linarith
    · rw [div_le_iff₀ hpos]
      have h1 := totalPoints_le_two_mul req
      have h2 := totalPoints_le_two_mul pref
      nlinarith

/-- **C6.** `score()` returns exactly the fields `{ats_score, required[],
preferred[], missing_required[], missing_preferred[]}`; `required` and
`preferred` are the ordered coverage lists of the input skill lists; and
`ats_score` lies in `[0, 100]` for every input. -/
theorem score_fields_and_range :
    atsScoreResponseFields
      = ["ats_score", "required", "preferred", "missing_required", "missing_preferred"]
    ∧ ∀ (reqSkills prefSkills : List String) (state : ResumeState)
        (overrides : List Override),
        (score reqSkills prefSkills state overrides).required
            = reqSkills.map (scoreCoverage state overrides)
        ∧ (score reqSkills prefSkills state overrides).preferred
            = prefSkills.map (scoreCoverage state overrides)
        ∧ 0 ≤ (score reqSkills prefSkills state overrides).ats_score
        ∧ (score reqSkills prefSkills state overrides).ats_score ≤ 100 := by
  refine ⟨rfl, fun reqSkills prefSkills state overrides => ⟨rfl, rfl, ?_, ?_⟩⟩
  · exact (atsScoreVal_mem _ _).1
  · exact (atsScoreVal_mem _ _).2

/-- **C7, counterexample.** The apply response type of the code does not
carry the fields `{resume_id, new_version, updated_sections}` claimed by
the spec: its fields are `{resume_id, version, paths}`. -/
theorem apply_response_fields_counterexample :
    applyPatchesResponseFields ≠ ["resume_id", "new_version", "updated_sections"] := by
  decide

/-- **C7, amended.** On success, apply() returns a result with exactly the
fields `{resume_id, version, paths}` (types.ts lines 104-111), where
`paths` holds `resume_json` and `resume_docx`; the `resume_id` is the
document's id and `version` renders the committed version. -/
theorem apply_response_fields :
    applyPatchesResponseFields = ["resume_id", "version", "paths"]
    ∧ applyPatchesPathsFields = ["resume_json", "resume_docx"]
    ∧ ∀ d : ResumeDocument,
        (mkApplyResponse d).resume_id = d.resume_id
        ∧ (mkApplyResponse d).version = versionString d.version := by
  exact ⟨rfl, rfl, fun d => ⟨rfl, rfl⟩⟩

/-! ## Atomicity and version bookkeeping of apply -/

/-- **C2.** `apply()` is atomic: a batch either validates entirely and
produces version N+1 from the whole batch, or fails — on a version
mismatch or on any out-of-range operation — leaving the observable
document unchanged at version N. -/
theorem apply_atomic (doc : ResumeDocument) (expected : Option Nat)
    (ops : List PatchOperation) :
    (applyStep doc expected ops = doc
      ∨ (applyStep doc expected ops).version = doc.version + 1)
    ∧ (∀ d, applyPatches doc expected ops = .ok d →
        d.version = doc.version + 1 ∧ d.resume_id = doc.resume_id
          ∧ applyBatch doc.state ops = some d.state ∧ applyStep doc expected ops = d)
    ∧ (∀ e, applyPatches doc expected ops = .error e → applyStep doc expected ops = doc)
    ∧ (∀ v, expected = some v → v ≠ doc.version →
        applyPatches doc expected ops = .error .versionConflict)
    ∧ (checkVersion doc expected = true → applyBatch doc.state ops = none →
        applyPatches doc expected ops = .error .validationError) := by
  cases hv : checkVersion doc expected with
  | false =>
    refine ⟨Or.inl ?_, ?_, ?_, ?_, ?_⟩
    · simp [applyStep, applyPatches, hv]
    · intro d hd
      simp [applyPatches, hv] at hd
    · intro e _
      simp [applyStep, applyPatches, hv]
    · intro v hev _
      simp [applyPatches, hv]
    · intro hcv _
      exact Bool.noConfusion hcv
  | true =>
    cases hb : applyBatch doc.state ops with
    | none =>
      refine ⟨Or.inl ?_, ?_, ?_, ?_, ?_⟩
      · simp [applyStep, applyPatches, hv, hb]
      · intro d hd
        simp [applyPatches, hv, hb] at hd
      · intro e _
        simp [applyStep, applyPatches, hv, hb]
      · intro v hev hne
        subst hev
        simp [checkVersion] at hv
        exact absurd hv hne
      · intro _ _
        simp [applyPatches, hv, hb]
    | some st =>
      refine ⟨Or.inr ?_, ?_, ?_, ?_, ?_⟩
      · simp [applyStep, applyPatches, hv, hb]
      · intro d hd
        simp only [applyPatches, hv, if_true, hb] at hd
        cases hd
        refine ⟨rfl, rfl, rfl, ?_⟩
        simp [applyStep, applyPatches, hv, hb]
      · intro e he
        simp [applyPatches, hv, hb] at he
      · intro v hev hne
        subst hev
        simp [checkVersion] at hv
        exact absurd hv hne
      · intro _ hbn
        exact Option.noConfusion hbn

/-- Witness for C2 at concrete inputs: a stale expected version fails with
`versionConflict` and changes nothing; a batch with an out-of-range index
fails with `validationError`. -/
theorem apply_atomic_witness :
    applyPatches sampleDoc (some 2) [] = .error .versionConflict
    ∧ applyStep sampleDoc (some 2) [] = sampleDoc
    ∧ applyPatches sampleDoc (some 1)
        [{ role_id := some "r1", sectionName := .experience, action := .insert,
           bullet_index := none, after_index := some 99, new_bullet := "x",
           skill := none, reason := none }] = .error .validationError := by
  have h1 := apply_atomic sampleDoc (some 2) []
  have h2 := apply_atomic sampleDoc (some 1)
      [{ role_id := some "r1", sectionName := .experience, action := .insert,
         bullet_index := none, after_index := some 99, new_bullet := "x",
         skill := none, reason := none }]
  have hc : applyPatches sampleDoc (some 2) [] = .error .versionConflict :=
    h1.2.2.2.1 2 rfl (by decide)
  exact ⟨hc, h1.2.2.1 _ hc, h2.2.2.2.2 (by decide) (by decide)⟩

lemma applyStep_version (doc : ResumeDocument) (expected : Option Nat)
    (ops : List PatchOperation) :
    (applyStep doc expected ops).version
        = doc.version + (if (applyPatches doc expected ops).toBool then 1 else 0)
    ∧ (applyStep doc expected ops).resume_id = doc.resume_id := by
  cases hv : checkVersion doc expected with
  | false => simp [applyStep, applyPatches, hv, Except.toBool]
  | true =>
    cases hb : applyBatch doc.state ops with
    | none => simp [applyStep, applyPatches, hv, hb, Except.toBool]
    | some st => simp [applyStep, applyPatches, hv, hb, Except.toBool, Except.isOk]

/-- **C3.** The document version starts at 1 and is strictly increasing
and gapless: after any request sequence, the version equals the initial
version plus the number of successful `apply` calls, regardless of batch
sizes, and the `resume_id` never changes. -/
theorem version_monotone :
    (∀ (rid : String) (st : ResumeState), (initialDocument rid st).version = 1)
    ∧ ∀ (doc : ResumeDocument) (reqs : List ApplyRequest),
        (runRequests doc reqs).version = doc.version + countApplied doc reqs
        ∧ (runRequests doc reqs).resume_id = doc.resume_id := by
  refine ⟨fun rid st => rfl, fun doc reqs => ?_⟩
  induction reqs generalizing doc with
  | nil => simp [runRequests, countApplied]
  | cons r rs ih =>
    have hs := applyStep_version doc r.expected r.ops
    have hr := ih (applyStep doc r.expected r.ops)
    constructor
    · show (runRequests (applyStep doc r.expected r.ops) rs).version = _
      rw [hr.1, hs.1]
      show _ = doc.version + (_ + countApplied (applyStep doc r.expected r.ops) rs)
      omega
    · show (runRequests (applyStep doc r.expected r.ops) rs).resume_id = _
      rw [hr.2, hs.2]

/-! ## Totality of the API client request function -/

/-- **C9.** `request` resolves to the tagged union `ApiResponse<T>` on
every fetch outcome: `{ok: true, data}` exactly when fetch succeeded with
`res.ok` and JSON parsing succeeded, and `{ok: false, error}` in every
other case — it never throws to the caller. -/
theorem request_total (T : Type) (outcome : JsOutcome (FetchResponse T)) :
    ((∃ msg, request outcome = ApiResponse.err msg)
      ∨ (∃ res d, outcome = .value res ∧ res.ok = true ∧ res.jsonResult = .value d
          ∧ request outcome = ApiResponse.ok d))
    ∧ (∀ d, request outcome = ApiResponse.ok d →
        ∃ res, outcome = .value res ∧ res.ok = true ∧ res.jsonResult = .value d) := by
  cases outcome with
  | thrown msg =>
    refine ⟨Or.inl ⟨msg, rfl⟩, fun d hd => ?_⟩
    simp [request] at hd
  | value res =>
    cases hok : res.ok with
    | false =>
      constructor
      · refine Or.inl ?_
        cases ht : res.textResult with
        | value t => exact ⟨t, by simp [request, hok, ht]⟩
        | thrown m => exact ⟨m, by simp [request, hok, ht]⟩
      · intro d hd
        cases ht : res.textResult with
        | value t => simp [request, hok, ht] at hd
        | thrown m => simp [request, hok, ht] at hd
    | true =>
      cases hj : res.jsonResult with
      | value d =>
        exact ⟨Or.inr ⟨res, d, rfl, hok, hj, by simp [request, hok, hj]⟩,
          fun d2 hd2 => ⟨res, rfl, hok, by
            simp [request, hok, hj] at hd2
            rw [hj, hd2]⟩⟩
      | thrown m =>
        refine ⟨Or.inl ⟨m, by simp [request, hok, hj]⟩, fun d hd => ?_⟩
        simp [request, hok, hj] at hd

/-- Witness for C9: a successful fetch with `ok` and parseable JSON is
recognized as the unique success case. -/
theorem request_total_witness :
    ∃ res : FetchResponse Nat,
      JsOutcome.value sampleFetch = JsOutcome.value res
      ∧ res.ok = true ∧ res.jsonResult = JsOutcome.value 5 :=
  (request_total Nat (JsOutcome.value sampleFetch)).2 5 rfl

/-! ## The ScoreRing component -/

lemma ringColor_cases (sc : ℚ) :
    (ringColor sc = .red ↔ sc < 60)
    ∧ (ringColor sc = .amber ↔ 60 ≤ sc ∧ sc < 80)
    ∧ (ringColor sc = .green ↔ 80 ≤ sc) := by
  unfold ringColor
  by_cases h1 : sc < 60
  · rw [if_pos h1]
    exact ⟨iff_of_true rfl h1,
      iff_of_false (by decide) fun hh => absurd h1 (not_lt.mpr hh.1),
      iff_of_false (by decide) fun hh => absurd h1 (not_lt.mpr (by linarith))⟩
  · by_cases h2 : sc < 80
    · rw [if_neg h1, if_pos h2]
      exact ⟨iff_of_false (by decide) h1,
        iff_of_true rfl ⟨le_of_not_lt h1, h2⟩,
        iff_of_false (by decide) fun hh => absurd h2 (not_lt.mpr hh)⟩
    · rw [if_neg h1, if_neg h2]
      exact ⟨iff_of_false (by decide) h1,
        iff_of_false (by decide) fun hh => h2 hh.2,
        iff_of_true rfl (le_of_not_lt h2)⟩

/-- **C10.** The progress arc is computed from the score clamped to
`[0, 100]`, so the stroke-dashoffset lies between 0 and the circumference
even for out-of-range scores (for any size with a non-degenerate radius,
such as the default 128); the ring color is red exactly when
`score < 60`, amber exactly when `60 ≤ score < 80`, and green exactly
when `score ≥ 80`. -/
theorem scoreRing_clamped (size sc : ℚ) (h : 20 ≤ size) :
    (0 ≤ ringOffset size sc ∧ ringOffset size sc ≤ ringCircumference size)
    ∧ (ringColor sc = .red ↔ sc < 60)
    ∧ (ringColor sc = .amber ↔ 60 ≤ sc ∧ sc < 80)
    ∧ (ringColor sc = .green ↔ 80 ≤ sc) := by
  have hpi : (0 : ℚ) < mathPi := by norm_num [mathPi]
  have hr : 0 ≤ ringRadius size := by
    unfold ringRadius
    linarith
  have hc : 0 ≤ ringCircumference size := by
    unfold ringCircumference
    have := mul_nonneg (mul_nonneg (by norm_num : (0:ℚ) ≤ 2) hpi.le) hr
    linarith
  have hp0 : 0 ≤ ringProgress sc := le_max_left 0 _
  have hp100 : ringProgress sc ≤ 100 := max_le (by norm_num) (min_le_left _ _)
  have hq0 : 0 ≤ ringProgress sc / 100 := by positivity
  have hq1 : ringProgress sc / 100 ≤ 1 := by
    rw [div_le_one (by norm_num : (0:ℚ) < 100)]
    exact hp100
  refine ⟨⟨?_, ?_⟩, ringColor_cases sc⟩
  · unfold ringOffset
    have := mul_le_mul_of_nonneg_right hq1 hc
    linarith
  · unfold ringOffset
    have := mul_nonneg hq0 hc
    linarith

/-- Witness for C10 at the component's default size and an out-of-range
score. -/
theorem scoreRing_clamped_witness :
    ((0 ≤ ringOffset 128 137 ∧ ringOffset 128 137 ≤ ringCircumference 128)
      ∧ (ringColor 137 = .red ↔ (137 : ℚ) < 60)
      ∧ (ringColor 137 = .amber ↔ (60 : ℚ) ≤ 137 ∧ (137 : ℚ) < 80)
      ∧ (ringColor 137 = .green ↔ (80 : ℚ) ≤ 137)) :=
  scoreRing_clamped 128 137 (by decide)

/-! ## Structure of the suggest outputs -/

lemma scoreCoverage_skill (st : ResumeState) (ov : List Override) (k : String) :
    (scoreCoverage st ov k).skill = k := rfl

lemma scoreCoverage_status (st : ResumeState) (ov : List Override) (k : String) :
    (scoreCoverage st ov k).status = skillStatus st ov k := rfl

lemma patchFor_skill (st : ResumeState) (ov : List Override) (c : SkillCoverage) :
    (patchFor st ov c).skill = some c.skill := by
  cases h : chooseTargetRole st ov c.skill <;> simp [patchFor, h]

lemma blockedFor_skill (st : ResumeState) (ov : List Override) (c : SkillCoverage) :
    (blockedFor st ov c).skill = c.skill := rfl

lemma mem_itemsPatches {items : List (Sum PatchOperation BlockedSuggestion)}
    {p : PatchOperation} : p ∈ itemsPatches items ↔ Sum.inl p ∈ items := by
  rw [itemsPatches, List.mem_filterMap]
  constructor
  · rintro ⟨a, ha, hfa⟩
    cases a with
    | inl q =>
      simp only [Option.some.injEq] at hfa
      rw [← hfa]
      exact ha
    | inr b => cases hfa
  · intro h
    exact ⟨Sum.inl p, h, rfl⟩

lemma mem_itemsBlocked {items : List (Sum PatchOperation BlockedSuggestion)}
    {b : BlockedSuggestion} : b ∈ itemsBlocked items ↔ Sum.inr b ∈ items := by
  rw [itemsBlocked, List.mem_filterMap]
  constructor
  · rintro ⟨a, ha, hfa⟩
    cases a with
    | inl q => cases hfa
    | inr c =>
      simp only [Option.some.injEq] at hfa
      rw [← hfa]
      exact ha
  · intro h
    exact ⟨Sum.inr b, h, rfl⟩

lemma mem_suggestItems {m : TruthMode} {st : ResumeState} {ov : List Override}
    {sk : List String} {x : Sum PatchOperation BlockedSuggestion} :
    x ∈ suggestItems m st ov sk
      ↔ ∃ k ∈ sk, genItem m st ov (scoreCoverage st ov k) = some x := by
  rw [suggestItems, List.mem_filterMap]
  constructor
  · rintro ⟨c, hc, hgen⟩
    obtain ⟨k, hk, rfl⟩ := List.mem_map.mp hc
    exact ⟨k, hk, hgen⟩
  · rintro ⟨k, hk, hgen⟩
    exact ⟨scoreCoverage st ov k, List.mem_map.mpr ⟨k, hk, rfl⟩, hgen⟩

lemma genItem_inl_iff {m : TruthMode} {st : ResumeState} {ov : List Override}
    {c : SkillCoverage} {p : PatchOperation} :
    genItem m st ov c = some (Sum.inl p)
      ↔ c.status ≠ .direct ∧ truthDecision m st ov c = .allow ∧ p = patchFor st ov c := by
  unfold genItem
  cases hd : c.status == SkillStatus.direct with
  | true =>
    rw [if_pos rfl]
    constructor
    · intro h
      cases h
    · rintro ⟨h1, -, -⟩
      exact absurd (beq_iff_eq.mp hd) h1
  | false =>
    rw [if_neg Bool.false_ne_true]
    have hne : c.status ≠ .direct := by
      intro h
      rw [h] at hd
      cases hd
    cases hdec : truthDecision m st ov c with
    | allow =>
      constructor
      · intro h
        simp only [Option.some.injEq, Sum.inl.injEq] at h
        exact ⟨hne, rfl, h.symm⟩
      · rintro ⟨-, -, rfl⟩
        rfl
    | block =>
      constructor
      · intro h
        cases h
      · rintro ⟨-, h2, -⟩
        cases h2

lemma genItem_inr_iff {m : TruthMode} {st : ResumeState} {ov : List Override}
    {c : SkillCoverage} {b : BlockedSuggestion} :
    genItem m st ov c = some (Sum.inr b)
      ↔ c.status ≠ .direct ∧ truthDecision m st ov c = .block ∧ b = blockedFor st ov c := by
  unfold genItem
  cases hd : c.status == SkillStatus.direct with
  | true =>
    rw [if_pos rfl]
    constructor
    · intro h
      cases h
    · rintro ⟨h1, -, -⟩
      exact absurd (beq_iff_eq.mp hd) h1
  | false =>
    rw [if_neg Bool.false_ne_true]
    have hne : c.status ≠ .direct := by
      intro h
      rw [h] at hd
      cases hd
    cases hdec : truthDecision m st ov c with
    | block =>
      constructor
      · intro h
        simp only [Option.some.injEq, Sum.inr.injEq] at h
        exact ⟨hne, rfl, h.symm⟩
      · rintro ⟨-, -, rfl⟩
        rfl
    | allow =>
      constructor
      · intro h
        cases h
      · rintro ⟨-, h2, -⟩
        cases h2

/-- A skill has a suggested patch exactly when it is in the scoring pass,
non-direct, and allowed by the truth policy. -/
lemma patch_skill_mem_iff (rq pf : List String) (st : ResumeState) (ov : List Override)
    (m : TruthMode) (k : String) :
    (∃ p ∈ (suggest rq pf st ov m).suggested_patches, p.skill = some k)
      ↔ k ∈ rq ++ pf ∧ (scoreCoverage st ov k).status ≠ .direct
          ∧ truthDecision m st ov (scoreCoverage st ov k) = .allow := by
  show (∃ p ∈ List.insertionSort (patchLE st) _, p.skill = some k) ↔ _
  constructor
  · rintro ⟨p, hp, hsk⟩
    have hp2 := (List.mem_insertionSort (patchLE st)).mp hp
    obtain ⟨k2, hk2, hgen⟩ := mem_suggestItems.mp (mem_itemsPatches.mp hp2)
    obtain ⟨hnd, hall, hpe⟩ := genItem_inl_iff.mp hgen
    have hps : p.skill = some k2 := by
      rw [hpe, patchFor_skill, scoreCoverage_skill]
    rw [hps] at hsk
    cases hsk
    exact ⟨hk2, hnd, hall⟩
  · rintro ⟨hk, hnd, hall⟩
    refine ⟨patchFor st ov (scoreCoverage st ov k), ?_, ?_⟩
    · exact (List.mem_insertionSort (patchLE st)).mpr
        (mem_itemsPatches.mpr
          (mem_suggestItems.mpr ⟨k, hk, genItem_inl_iff.mpr ⟨hnd, hall, rfl⟩⟩))
    · rw [patchFor_skill, scoreCoverage_skill]

/-- A skill has a blocked entry exactly when it is in the scoring pass,
non-direct, and blocked by the truth policy. -/
lemma blocked_skill_mem_iff (rq pf : List String) (st : ResumeState) (ov : List Override)
    (m : TruthMode) (k : String) :
    (∃ b ∈ (suggest rq pf st ov m).blocked, b.skill = k)
      ↔ k ∈ rq ++ pf ∧ (scoreCoverage st ov k).status ≠ .direct
          ∧ truthDecision m st ov (scoreCoverage st ov k) = .block := by
  show (∃ b ∈ itemsBlocked _, b.skill = k) ↔ _
  constructor
  · rintro ⟨b, hb, hsk⟩
    obtain ⟨k2, hk2, hgen⟩ := mem_suggestItems.mp (mem_itemsBlocked.mp hb)
    obtain ⟨hnd, hbl, hbe⟩ := genItem_inr_iff.mp hgen
    have hbs : b.skill = k2 := by
      rw [hbe, blockedFor_skill, scoreCoverage_skill]
    rw [hbs] at hsk
    cases hsk
    exact ⟨hk2, hnd, hbl⟩
  · rintro ⟨hk, hnd, hbl⟩
    refine ⟨blockedFor st ov (scoreCoverage st ov k), ?_, ?_⟩
    · exact mem_itemsBlocked.mpr
        (mem_suggestItems.mpr ⟨k, hk, genItem_inr_iff.mpr ⟨hnd, hbl, rfl⟩⟩)
    · rw [blockedFor_skill, scoreCoverage_skill]

/-! ## Zero-evidence skills under strict mode -/

lemma bulletsEvidence_eq_nil {rid k : String} :
    ∀ {i : Nat} {bs : List String},
      bulletsEvidence rid k i bs = [] ↔ bs.any (fun b => strMentions b k) = false := by
  intro i bs
  induction bs generalizing i with
  | nil => simp [bulletsEvidence]
  | cons b t ih =>
    cases hm : strMentions b k with
    | false => simp [bulletsEvidence, hm, ih]
    | true => simp [bulletsEvidence, hm]

lemma resumeEvidence_eq_nil {st : ResumeState} {k : String} :
    resumeEvidence st k = [] ↔ resumeMatch st k = false := by
  unfold resumeEvidence resumeMatch skillsEvidence
  cases hc : st.sections.technical_skills.contains k with
  | true => simp [hc]
  | false =>
    rw [if_neg Bool.false_ne_true]
    simp only [List.nil_append, Bool.false_or, List.flatten_eq_nil_iff, List.any_eq_false]
    constructor
    · intro h r hr
      have := h (roleEvidence r k) (List.mem_map.mpr ⟨r, hr, rfl⟩)
      rw [roleEvidence] at this
      rw [bulletsEvidence_eq_nil] at this
      simp [this]
    · intro h l hl
      obtain ⟨r, hr, rfl⟩ := List.mem_map.mp hl
      rw [roleEvidence, bulletsEvidence_eq_nil]
      simpa using h r hr

lemma overrideEvidence_eq_nil {ov : List Override} {k : String}
    (hov : ∀ o ∈ ov, o.proof_bullets ≠ []) :
    overrideEvidence ov k = [] ↔ ∀ o ∈ ov, (o.skill == k) = false := by
  unfold overrideEvidence
  rw [List.flatten_eq_nil_iff]
  constructor
  · intro h o ho
    cases hsk : o.skill == k with
    | false => rfl
    | true =>
      have hmem : o ∈ ov.filter fun o => o.skill == k :=
        List.mem_filter.mpr ⟨ho, hsk⟩
      have := h _ (List.mem_map.mpr ⟨o, hmem, rfl⟩)
      rw [List.map_eq_nil_iff] at this
      exact absurd this (hov o ho)
  · intro h l hl
    obtain ⟨o, ho, rfl⟩ := List.mem_map.mp hl
    obtain ⟨ho2, hsk⟩ := List.mem_filter.mp ho
    rw [h o ho2] at hsk
    cases hsk

lemma hasOverrideAtLeast_false {ov : List Override} {k : String}
    (h : ∀ o ∈ ov, (o.skill == k) = false) (lvl : OverrideLevel) :
    hasOverrideAtLeast ov k lvl = false := by
  unfold hasOverrideAtLeast
  rw [List.any_eq_false]
  intro o ho
  simp [h o ho]

lemma overridesFor_eq_nil {ov : List Override} {k : String}
    (h : ∀ o ∈ ov, (o.skill == k) = false) : overridesFor ov k = [] := by
  unfold overridesFor
  rw [List.filter_eq_nil_iff]
  intro o ho
  simp [h o ho]

/-- **C1.** Under `truth_mode = strict`, a skill in the scoring pass whose
coverage has zero Evidence items never appears in `suggested_patches`, and
appears in `blocked` with `recommended_action = add_override`.  (Overrides
are assumed well-formed per the data model of §3: each carries one or more
proof bullets, so a skill with zero Evidence has no override at all.) -/
theorem strict_zero_evidence_blocked (rq pf : List String) (st : ResumeState)
    (ov : List Override) (k : String)
    (hov : ∀ o ∈ ov, o.proof_bullets ≠ [])
    (hk : k ∈ rq ++ pf)
    (hev : (scoreCoverage st ov k).evidence = []) :
    (∀ p ∈ (suggest rq pf st ov .strict).suggested_patches, p.skill ≠ some k)
    ∧ ∃ b ∈ (suggest rq pf st ov .strict).blocked,
        b.skill = k ∧ b.recommended_action = .add_override := by
  have hev2 : resumeEvidence st k = [] ∧ overrideEvidence ov k = [] :=
    List.append_eq_nil.mp hev
  have hm : resumeMatch st k = false := resumeEvidence_eq_nil.mp hev2.1
  have hno : ∀ o ∈ ov, (o.skill == k) = false :=
    (overrideEvidence_eq_nil hov).mp hev2.2
  have hst : skillStatus st ov k = .missing := by
    unfold skillStatus
    rw [hm, if_neg Bool.false_ne_true, hasOverrideAtLeast_false hno,
      if_neg Bool.false_ne_true]
  have hnd : (scoreCoverage st ov k).status ≠ .direct := by
    rw [scoreCoverage_status, hst]
    intro h
    cases h
  have hdec : truthDecision .strict st ov (scoreCoverage st ov k) = .block := by
    unfold truthDecision
    rw [if_neg ?hdir, if_neg ?hany]
    case hdir =>
      rw [scoreCoverage_status, hst]
      exact Bool.false_ne_true
    case hany =>
      have : (ov.any fun o =>
          o.skill == (scoreCoverage st ov k).skill && o.level == OverrideLevel.hands_on
            && overrideTargetsResume st o) = false := by
        rw [List.any_eq_false]
        intro o ho
        rw [scoreCoverage_skill]
        simp [hno o ho]
      rw [this]
      exact Bool.false_ne_true
  constructor
  · intro p hp hsk
    have := (patch_skill_mem_iff rq pf st ov .strict k).mp ⟨p, hp, hsk⟩
    rw [hdec] at this
    cases this.2.2
  · refine ⟨blockedFor st ov (scoreCoverage st ov k), ?_, ?_, ?_⟩
    · exact mem_itemsBlocked.mpr
        (mem_suggestItems.mpr ⟨k, hk, genItem_inr_iff.mpr ⟨hnd, hdec, rfl⟩⟩)
    · rw [blockedFor_skill, scoreCoverage_skill]
    · unfold blockedFor
      rw [scoreCoverage_skill, overridesFor_eq_nil hno]
      rfl

/-- Witness for C1: Fivetran has no evidence in the sample resume and is
blocked with `add_override` under strict mode. -/
theorem strict_zero_evidence_blocked_witness :
    (∀ p ∈ (suggest ["Fivetran"] [] sampleState [] .strict).suggested_patches,
        p.skill ≠ some "Fivetran")
    ∧ ∃ b ∈ (suggest ["Fivetran"] [] sampleState [] .strict).blocked,
        b.skill = "Fivetran" ∧ b.recommended_action = .add_override :=
  strict_zero_evidence_blocked ["Fivetran"] [] sampleState [] "Fivetran"
    (by intro o ho; cases ho) (by decide) (by decide)

/-! ## Mutual exclusivity of the suggest outputs -/

/-- **C4, counterexample.** It is not true that every skill of the scoring
pass appears in exactly one of the two outputs: a `direct` skill appears
in neither.  With the sample resume and the single required skill "SQL"
(which is in the technical-skills list), both outputs are empty. -/
theorem suggest_exclusive_counterexample :
    "SQL" ∈ ["SQL"] ++ ([] : List String)
    ∧ (suggest ["SQL"] [] sampleState [] .strict).suggested_patches = []
    ∧ (suggest ["SQL"] [] sampleState [] .strict).blocked = [] := by
  decide

/-- **C4, amended.** Within one scoring pass, `suggested_patches` and
`blocked` are mutually exclusive per skill: no skill appears in both; a
`direct` skill appears in neither; and every non-`direct` skill of the
pass appears in exactly one of the two outputs. -/
theorem suggest_outputs_exclusive (rq pf : List String) (st : ResumeState)
    (ov : List Override) (m : TruthMode) (k : String) (hk : k ∈ rq ++ pf) :
    (¬((∃ p ∈ (suggest rq pf st ov m).suggested_patches, p.skill = some k)
        ∧ (∃ b ∈ (suggest rq pf st ov m).blocked, b.skill = k)))
    ∧ ((scoreCoverage st ov k).status = .direct →
        (∀ p ∈ (suggest rq pf st ov m).suggested_patches, p.skill ≠ some k)
        ∧ (∀ b ∈ (suggest rq pf st ov m).blocked, b.skill ≠ k))
    ∧ ((scoreCoverage st ov k).status ≠ .direct →
        ((∃ p ∈ (suggest rq pf st ov m).suggested_patches, p.skill = some k)
            ∧ (∀ b ∈ (suggest rq pf st ov m).blocked, b.skill ≠ k))
        ∨ ((∀ p ∈ (suggest rq pf st ov m).suggested_patches, p.skill ≠ some k)
            ∧ (∃ b ∈ (suggest rq pf st ov m).blocked, b.skill = k))) := by
  refine ⟨?_, ?_, ?_⟩
  · rintro ⟨hp, hb⟩
    have h1 := (patch_skill_mem_iff rq pf st ov m k).mp hp
    have h2 := (blocked_skill_mem_iff rq pf st ov m k).mp hb
    rw [h1.2.2] at h2
    cases h2.2.2
  · intro hdir
    constructor
    · intro p hp hsk
      have := (patch_skill_mem_iff rq pf st ov m k).mp ⟨p, hp, hsk⟩
      exact this.2.1 hdir
    · intro b hb hsk
      have := (blocked_skill_mem_iff rq pf st ov m k).mp ⟨b, hb, hsk⟩
      exact this.2.1 hdir
  · intro hnd
    cases hdec : truthDecision m st ov (scoreCoverage st ov k) with
    | allow =>
      refine Or.inl ⟨(patch_skill_mem_iff rq pf st ov m k).mpr ⟨hk, hnd, hdec⟩, ?_⟩
      intro b hb hsk
      have := (blocked_skill_mem_iff rq pf st ov m k).mp ⟨b, hb, hsk⟩
      rw [hdec] at this
      cases this.2.2
    | block =>
      refine Or.inr ⟨?_, (blocked_skill_mem_iff rq pf st ov m k).mpr ⟨hk, hnd, hdec⟩⟩
      intro p hp hsk
      have := (patch_skill_mem_iff rq pf st ov m k).mp ⟨p, hp, hsk⟩
      rw [hdec] at this
      cases this.2.2

/-- Witness for C4 at concrete inputs: Fivetran is not direct in the
sample resume, so it lands in exactly one output (here: blocked). -/
theorem suggest_outputs_exclusive_witness :
    (¬((∃ p ∈ (suggest ["Fivetran"] [] sampleState [] .strict).suggested_patches,
          p.skill = some "Fivetran")
        ∧ (∃ b ∈ (suggest ["Fivetran"] [] sampleState [] .strict).blocked,
          b.skill = "Fivetran")))
    ∧ (((∃ p ∈ (suggest ["Fivetran"] [] sampleState [] .strict).suggested_patches,
          p.skill = some "Fivetran")
        ∧ (∀ b ∈ (suggest ["Fivetran"] [] sampleState [] .strict).blocked,
          b.skill ≠ "Fivetran"))
      ∨ ((∀ p ∈ (suggest ["Fivetran"] [] sampleState [] .strict).suggested_patches,
          p.skill ≠ some "Fivetran")
        ∧ (∃ b ∈ (suggest ["Fivetran"] [] sampleState [] .strict).blocked,
          b.skill = "Fivetran"))) := by
  have h := suggest_outputs_exclusive ["Fivetran"] [] sampleState [] .strict "Fivetran"
    (by decide)
  exact ⟨h.1, h.2.2 (by decide)⟩

/-! ## Determinism and ordering of blocked_plan -/

lemma itemsBlocked_filterMap (covs : List SkillCoverage)
    (f : SkillCoverage → Option (Sum PatchOperation BlockedSuggestion)) :
    itemsBlocked (covs.filterMap f)
      = covs.filterMap fun c =>
          match f c with
          | some (.inr b) => some b
          | _ => none := by
  induction covs with
  | nil => rfl
  | cons c t ih =>
    rw [List.filterMap_cons, List.filterMap_cons]
    cases hf : f c with
    | none => simpa using ih
    | some x =>
      cases x with
      | inl p => simpa [itemsBlocked, List.filterMap_cons] using ih
      | inr b => simpa [itemsBlocked, List.filterMap_cons] using ih

/-- **C8.** `blocked_plan` is a deterministic read-only projection: two
calls with identical inputs return identical ordered lists, and the list
is exactly the order-preserving projection of the per-skill decisions over
the input skill order (required skills first, then preferred), truncated
to `top_n` — so the output order is fully reproducible from the inputs. -/
theorem blockedPlan_deterministic (rq pf : List String) (st : ResumeState)
    (ov : List Override) (m : TruthMode) (top_n : Nat) :
    blockedPlan rq pf st ov m top_n = blockedPlan rq pf st ov m top_n
    ∧ blockedPlan rq pf st ov m top_n
        = (((rq ++ pf).map (scoreCoverage st ov)).filterMap fun c =>
            match genItem m st ov c with
            | some (.inr b) => some b
            | _ => none).take top_n := by
  refine ⟨rfl, ?_⟩
  show ((suggest rq pf st ov m).blocked).take top_n = _
  have : (suggest rq pf st ov m).blocked
      = itemsBlocked (suggestItems m st ov (rq ++ pf)) := rfl
  rw [this, suggestItems, itemsBlocked_filterMap]


/-! ## Monotonicity of the aggregate score in evidence -/

/-- Adding a skill entry to the technical-skills section, everything else
fixed. -/
def addTechSkill (st : ResumeState) (k : String) : ResumeState :=
  { st with sections :=
      { st.sections with
        technical_skills := st.sections.technical_skills ++ [k] } }

/-- One resume state carries at most the evidence of another: its
technical-skills list is a sublist, and role for role its bullets are
sublists.  Removing any evidence snippet from a state leaves a state below
it in this order. -/
def stateLE (s1 s2 : ResumeState) : Prop :=
  List.Sublist s1.sections.technical_skills s2.sections.technical_skills
    ∧ List.Forall₂ (fun r1 r2 : ExperienceRole => List.Sublist r1.bullets r2.bullets)
        s1.sections.experience s2.sections.experience

lemma sublist_any_mono {α : Type} {l1 l2 : List α} (h : List.Sublist l1 l2)
    (p : α → Bool) (ha : l1.any p = true) : l2.any p = true := by
  rcases List.any_eq_true.mp ha with ⟨a, hal, hpa⟩
  exact List.any_eq_true.mpr ⟨a, h.subset hal, hpa⟩

lemma forall2_mem_left {α β : Type} {R : α → β → Prop} {l1 : List α} {l2 : List β}
    (h : List.Forall₂ R l1 l2) {a : α} (ha : a ∈ l1) : ∃ b ∈ l2, R a b := by
  induction h with
  | nil => cases ha
  | @cons x y t1 t2 hr ht ih =>
    rcases List.mem_cons.mp ha with rfl | ha2
    · exact ⟨y, List.mem_cons_self _ _, hr⟩
    · obtain ⟨b, hb, hrb⟩ := ih ha2
      exact ⟨b, List.mem_cons_of_mem _ hb, hrb⟩

lemma resumeMatch_mono {s1 s2 : ResumeState} {k : String} (h : stateLE s1 s2)
    (hm : resumeMatch s1 k = true) : resumeMatch s2 k = true := by
  unfold resumeMatch at hm ⊢
  rcases Bool.or_eq_true_iff.mp hm with h1 | h2
  · have hmem : k ∈ s1.sections.technical_skills := by simpa using h1
    have : k ∈ s2.sections.technical_skills := h.1.subset hmem
    exact Bool.or_eq_true_iff.mpr (Or.inl (by simpa))
  · rcases List.any_eq_true.mp h2 with ⟨r1, hr1, hp⟩
    obtain ⟨r2, hr2, hsub⟩ := forall2_mem_left h.2 hr1
    refine Bool.or_eq_true_iff.mpr (Or.inr ?_)
    exact List.any_eq_true.mpr ⟨r2, hr2, sublist_any_mono hsub _ hp⟩

lemma hasOverrideAtLeast_mono {ov1 ov2 : List Override} (ho : List.Sublist ov1 ov2)
    {k : String} {lvl : OverrideLevel} (h : hasOverrideAtLeast ov1 k lvl = true) :
    hasOverrideAtLeast ov2 k lvl = true :=
  sublist_any_mono ho _ h

lemma covPoints_status_mono {s1 s2 : ResumeState} {ov1 ov2 : List Override}
    (hs : stateLE s1 s2) (ho : List.Sublist ov1 ov2) (k : String) :
    covPoints (skillStatus s1 ov1 k) ≤ covPoints (skillStatus s2 ov2 k) := by
  unfold skillStatus
  cases hm2 : resumeMatch s2 k with
  | true =>
    rw [if_pos rfl]
    exact (covPoints_le_two _).trans (by norm_num [covPoints])
  | false =>
    have hm1 : resumeMatch s1 k = false := by
      cases hm1 : resumeMatch s1 k with
      | false => rfl
      | true =>
        rw [resumeMatch_mono hs hm1] at hm2
        cases hm2
    rw [hm1]
    cases hv2 : hasOverrideAtLeast ov2 k .worked_with with
    | true =>
      cases hv1 : hasOverrideAtLeast ov1 k .worked_with <;>
        norm_num [covPoints]
    | false =>
      have hv1 : hasOverrideAtLeast ov1 k .worked_with = false := by
        cases hv1 : hasOverrideAtLeast ov1 k .worked_with with
        | false => rfl
        | true =>
          rw [hasOverrideAtLeast_mono ho hv1] at hv2
          cases hv2
      rw [hv1]

lemma totalPoints_map_mono {s1 s2 : ResumeState} {ov1 ov2 : List Override}
    (hs : stateLE s1 s2) (ho : List.Sublist ov1 ov2) (sk : List String) :
    totalPoints (sk.map (scoreCoverage s1 ov1))
      ≤ totalPoints (sk.map (scoreCoverage s2 ov2)) := by
  unfold totalPoints
  rw [List.map_map, List.map_map]
  exact List.sum_le_sum fun k _ => covPoints_status_mono hs ho k

lemma atsScoreVal_le_atsScoreVal {r1 r2 p1 p2 : List SkillCoverage}
    (hlr : r1.length = r2.length) (hlp : p1.length = p2.length)
    (hr : totalPoints r1 ≤ totalPoints r2) (hp : totalPoints p1 ≤ totalPoints p2) :
    atsScoreVal r1 p1 ≤ atsScoreVal r2 p2 := by
  unfold atsScoreVal
  rw [hlr, hlp]
  by_cases h : 6 * (r2.length : ℚ) + 2 * p2.length = 0
  · rw [if_pos h, if_pos h]
  · have hpos : (0 : ℚ) < 6 * (r2.length : ℚ) + 2 * p2.length :=
      lt_of_le_of_ne (by positivity) (Ne.symm h)
    rw [if_neg h, if_neg h, div_le_div_iff₀ hpos hpos]
    exact mul_le_mul_of_nonneg_right (by linarith) hpos.le

lemma atsScoreVal_lt_atsScoreVal {r1 r2 p1 p2 : List SkillCoverage}
    (hlr : r1.length = r2.length) (hlp : p1.length = p2.length)
    (hpos : (0 : ℚ) < 6 * (r2.length : ℚ) + 2 * p2.length)
    (hr : totalPoints r1 < totalPoints r2) (hp : totalPoints p1 ≤ totalPoints p2) :
    atsScoreVal r1 p1 < atsScoreVal r2 p2 := by
  unfold atsScoreVal
  rw [hlr, hlp, if_neg (ne_of_gt hpos), if_neg (ne_of_gt hpos), div_lt_div_iff₀ hpos hpos]
  exact mul_lt_mul_of_pos_right (by linarith) hpos

lemma stateLE_addTechSkill (st : ResumeState) (k : String) :
    stateLE st (addTechSkill st k) :=
  ⟨List.sublist_append_left _ _,
    List.forall₂_same.mpr fun _ _ => List.Sublist.refl _⟩

lemma skillStatus_addTechSkill (st : ResumeState) (ov : List Override) (k : String) :
    skillStatus (addTechSkill st k) ov k = .direct := by
  unfold skillStatus
  have : resumeMatch (addTechSkill st k) k = true := by
    unfold resumeMatch addTechSkill
    simp
  rw [this, if_pos rfl]

/-- **C5.** The aggregate `ats_score` is monotone in evidence: adding the
resume-sourced direct match for a required skill that is currently
`missing` or `partial` (appending it to the technical-skills section,
everything else fixed) strictly increases `ats_score`; and removing any
evidence — dropping technical-skill entries, role bullets, or overrides —
never increases `ats_score`. -/
theorem ats_score_monotone :
    (∀ (st : ResumeState) (ov : List Override) (rq pf : List String) (k : String),
        k ∈ rq → skillStatus st ov k ≠ .direct →
        (score rq pf st ov).ats_score < (score rq pf (addTechSkill st k) ov).ats_score)
    ∧ (∀ (s1 s2 : ResumeState) (ov1 ov2 : List Override) (rq pf : List String),
        stateLE s1 s2 → List.Sublist ov1 ov2 →
        (score rq pf s1 ov1).ats_score ≤ (score rq pf s2 ov2).ats_score) := by
  constructor
  · intro st ov rq pf k hk hnd
    show atsScoreVal (rq.map (scoreCoverage st ov)) (pf.map (scoreCoverage st ov))
      < atsScoreVal (rq.map (scoreCoverage (addTechSkill st k) ov))
          (pf.map (scoreCoverage (addTechSkill st k) ov))
    have hs := stateLE_addTechSkill st k
    have hlen : (0 : ℚ) < (rq.length : ℚ) := by
      exact_mod_cast List.length_pos.mpr (List.ne_nil_of_mem hk)
    refine atsScoreVal_lt_atsScoreVal (by simp) (by simp) ?_ ?_ ?_
    · rw [List.length_map]
      positivity
    · unfold totalPoints
      rw [List.map_map, List.map_map]
      refine List.sum_lt_sum _ _
        (fun k2 _ => covPoints_status_mono hs (List.Sublist.refl ov) k2) ⟨k, hk, ?_⟩
      show covPoints (skillStatus st ov k) < covPoints (skillStatus (addTechSkill st k) ov k)
      rw [skillStatus_addTechSkill]
      cases h : skillStatus st ov k with
      | direct => exact absurd h hnd
      | partialCov => norm_num [covPoints]
      | missing => norm_num [covPoints]
    · exact totalPoints_map_mono hs (List.Sublist.refl ov) pf
  · intro s1 s2 ov1 ov2 rq pf hs ho
    show atsScoreVal (rq.map (scoreCoverage s1 ov1)) (pf.map (scoreCoverage s1 ov1))
      ≤ atsScoreVal (rq.map (scoreCoverage s2 ov2)) (pf.map (scoreCoverage s2 ov2))
    exact atsScoreVal_le_atsScoreVal (by simp) (by simp)
      (totalPoints_map_mono hs ho rq) (totalPoints_map_mono hs ho pf)

/-- Witness for C5 at concrete inputs: adding the missing required skill
"Fivetran" to the sample resume strictly raises the score, and the score
from identical evidence is (weakly) preserved. -/
theorem ats_score_monotone_witness :
    (score ["Fivetran"] [] sampleState []).ats_score
        < (score ["Fivetran"] [] (addTechSkill sampleState "Fivetran") []).ats_score
    ∧ (score ["SQL"] [] sampleState []).ats_score
        ≤ (score ["SQL"] [] sampleState []).ats_score :=
  ⟨ats_score_monotone.1 sampleState [] ["Fivetran"] [] "Fivetran" (by decide) (by decide),
    ats_score_monotone.2 sampleState sampleState [] [] ["SQL"] []
      ⟨List.Sublist.refl _, List.forall₂_same.mpr fun _ _ => List.Sublist.refl _⟩
      (List.Sublist.refl _)⟩


end ResumeGen
